import Mathlib

/-!
# Verification of the My_Lovable_Platform agent execution core

This file gives a shallow embedding of the agent execution core of the
My_Lovable_Platform repository (the ReAct-style loop, its built-in tools,
the session store and the context builder) together with the frontend
`ChatInterface` send handler, and proves the specified properties about
those definitions.

The agent subsystem itself ships as documentation (`src/agent/README.md`
and the project READMEs) while its Python implementation files
(`agent/react_agent.py`, `agent/file_operations.py`,
`database/context_manager.py`, `database/models.py`) are not part of the
source tree given here; definitions for that subsystem are therefore
modelled from the specification, as their doc comments record.  The
frontend component `src/src/components/ChatInterface.tsx` is present and
is embedded directly from its source.

Strings are handled at the level of their character lists so that every
definition evaluates by kernel reduction on concrete inputs.
-/

namespace Agent

/-! ## Character-list utilities -/

/-- Split a character list on a separator character (an empty input
yields one empty field, matching the usual split semantics). -/
def splitOnChar (sep : Char) : List Char → List (List Char)
  | [] => [[]]
  | c :: rest =>
    let r := splitOnChar sep rest
    if c = sep then [] :: r
    else
      match r with
      | [] => [[c]]
      | g :: gs => (c :: g) :: gs

/-- `containsList needle hay` is true when `needle` occurs as a
contiguous subsequence of `hay`. -/
def containsList (needle : List Char) : List Char → Bool
  | [] => needle.isEmpty
  | c :: rest => needle.isPrefixOf (c :: rest) || containsList needle rest

/-! ## Tool errors -/

/-- Error kinds produced by the built-in tools (spec §4.5 and §7):
filesystem errors, plus the `bash` tool's `Timeout`, `Denied` and
`NonZeroExit` (the latter carrying the captured stdout/stderr that is
surfaced as the observation text). -/
inductive ToolError where
  | AccessDenied : ToolError
  | NotFound : ToolError
  | NotADirectory : ToolError
  | InvalidPattern : ToolError
  | Timeout : ToolError
  | Denied : ToolError
  | NonZeroExit (observation : String) : ToolError
deriving DecidableEq, Repr

/-! ## Path containment (spec §4.5 cross-cutting invariant)

Modelled from the spec: every filesystem tool resolves its path against
a fixed project root and rejects any resolved path outside that root via
a shared pre-check.  A path is a `/`-separated string; resolution
normalises `.` and `..` components against the root, and fails (`none`)
exactly when the path escapes the root (a `..` past the root, or an
absolute path). -/

/-- Resolve a list of path components against the project root, kept as a
stack of components already inside the root.  `.` and empty components
are ignored, `..` pops one component and escapes (`none`) when the stack
is already at the root. -/
def resolveComponents : List (List Char) → List (List Char) → Option (List (List Char))
  | stack, [] => some stack.reverse
  | stack, c :: rest =>
    if c = [] ∨ c = ['.'] then resolveComponents stack rest
    else if c = ['.', '.'] then
      match stack with
      | [] => none
      | _ :: stack' => resolveComponents stack' rest
    else resolveComponents (c :: stack) rest

/-- Modelled from the spec: resolve a tool's path argument against the
fixed project root.  Absolute paths and paths whose `..` components
climb above the root resolve outside the root and yield `none`. -/
def resolvePath (p : String) : Option (List (List Char)) :=
  if p.data.head? = some '/' then none
  else resolveComponents [] (splitOnChar '/' p.data)

/-- Render a resolved path back to a `/`-separated string. -/
def renderPath (rp : List (List Char)) : String :=
  String.mk (List.intercalate ['/'] rp)

/-- The in-memory model of the project directory: an association list
from resolved paths (component lists inside the root) to file
contents. -/
abbrev Fs := List (List (List Char) × String)

/-- Modelled from the spec: the shared containment pre-check wrapped
around every filesystem tool — mandatory and independent of the
individual tool's own logic.  On a path that resolves outside the root
it returns `AccessDenied` and leaves the filesystem untouched; otherwise
it runs the tool body on the resolved path. -/
def withContained (p : String)
    (body : List (List Char) → Fs → Except ToolError String × Fs)
    (fs : Fs) : Except ToolError String × Fs :=
  match resolvePath p with
  | none => (Except.error ToolError.AccessDenied, fs)
  | some rp => body rp fs

/-- Modelled from the spec: `read_file(path)` returns the content, fails
with `NotFound` if absent, `AccessDenied` if the path escapes the
project root. -/
def read_file (fs : Fs) (p : String) : Except ToolError String × Fs :=
  withContained p (fun rp fs =>
    match fs.lookup rp with
    | some content => (Except.ok content, fs)
    | none => (Except.error ToolError.NotFound, fs)) fs

/-- Modelled from the spec: `write_file(path, content)` creates or
overwrites; fails with `AccessDenied` on path escape. -/
def write_file (fs : Fs) (p : String) (content : String) :
    Except ToolError String × Fs :=
  withContained p (fun rp fs =>
    (Except.ok "", (rp, content) :: fs.filter (fun e => e.1 ≠ rp))) fs

/-- Modelled from the spec: `delete_file(path)` removes the file or
directory (recursive for directories: every entry under the resolved
path is removed); fails with `NotFound` if absent. -/
def delete_file (fs : Fs) (p : String) : Except ToolError String × Fs :=
  withContained p (fun rp fs =>
    let hit := fs.filter (fun e => e.1.take rp.length = rp)
    if hit.isEmpty then (Except.error ToolError.NotFound, fs)
    else (Except.ok "", fs.filter (fun e => e.1.take rp.length ≠ rp))) fs

/-- Modelled from the spec: `list_dir(path)` returns the entries under
the resolved directory; fails with `NotFound` when nothing exists there
and `NotADirectory` when the resolved path is a plain file. -/
def list_dir (fs : Fs) (p : String) : Except ToolError String × Fs :=
  withContained p (fun rp fs =>
    if (fs.lookup rp).isSome then (Except.error ToolError.NotADirectory, fs)
    else
      let entries := fs.filter (fun e =>
        e.1.take rp.length = rp ∧ rp.length < e.1.length)
      if entries.isEmpty then (Except.error ToolError.NotFound, fs)
      else
        (Except.ok (String.intercalate "\n" (entries.map (fun e => renderPath e.1))),
         fs)) fs

/-- Modelled from the spec: a (deliberately small) model of regular
expression validity for `grep` — a pattern is malformed when its
bracket groups are unbalanced. -/
def validPattern (pat : String) : Bool :=
  pat.data.count '(' = pat.data.count ')' ∧
  pat.data.count '[' = pat.data.count ']'

/-- Modelled from the spec: `grep(pattern, path)` returns the matching
lines (with their file locations) of every file under the resolved
path; fails with `InvalidPattern` on a malformed pattern, and is subject
to the same containment pre-check as the other filesystem tools. -/
def grep (fs : Fs) (pat : String) (p : String) : Except ToolError String × Fs :=
  withContained p (fun rp fs =>
    if ¬ validPattern pat then (Except.error ToolError.InvalidPattern, fs)
    else
      let files := fs.filter (fun e => e.1.take rp.length = rp)
      let hits := files.map (fun e =>
        ((splitOnChar '\n' e.2.data).filter (fun line => containsList pat.data line))
          |>.map (fun line => renderPath e.1 ++ ":" ++ String.mk line))
      (Except.ok (String.intercalate "\n" hits.flatten), fs)) fs

end Agent

/-- C1: every filesystem tool (read_file, write_file, delete_file,
list_dir, grep), on any input path whose resolution against the fixed
project root lies outside that root, returns `AccessDenied` and performs
no filesystem operation (the filesystem is returned unchanged). -/
theorem c1_path_containment (p : String) (h : Agent.resolvePath p = none)
    (fs : Agent.Fs) (content pat : String) :
    Agent.read_file fs p = (Except.error Agent.ToolError.AccessDenied, fs) ∧
    Agent.write_file fs p content = (Except.error Agent.ToolError.AccessDenied, fs) ∧
    Agent.delete_file fs p = (Except.error Agent.ToolError.AccessDenied, fs) ∧
    Agent.list_dir fs p = (Except.error Agent.ToolError.AccessDenied, fs) ∧
    Agent.grep fs pat p = (Except.error Agent.ToolError.AccessDenied, fs) := by
  refine ⟨?_, ?_, ?_, ?_, ?_⟩ <;>
    simp [Agent.read_file, Agent.write_file, Agent.delete_file, Agent.list_dir,
      Agent.grep, Agent.withContained, h]

/-- C1 witness: the traversal input `"../../etc/passwd"` resolves outside
the project root, and on a concrete filesystem every tool answers
`AccessDenied` with the filesystem unchanged — never file content. -/
theorem c1_path_containment_witness :
    Agent.resolvePath "../../etc/passwd" = none ∧
    Agent.read_file [([['i'], ['f']], "data")] "../../etc/passwd" =
      (Except.error Agent.ToolError.AccessDenied, [([['i'], ['f']], "data")]) := by
  have h : Agent.resolvePath "../../etc/passwd" = none := by decide
  exact ⟨h, (c1_path_containment "../../etc/passwd" h
    [([['i'], ['f']], "data")] "" "").1⟩

namespace Agent

/-! ## The bash tool (spec §4.5)

Modelled from the spec: `bash(command)` executes a shell command with a
hard wall-clock timeout (documented as 30 seconds in the repository
README), a deny-list of destructive patterns, and surfaces a non-zero
exit code as `NonZeroExit` carrying the captured stdout/stderr.  The
shell itself is an external collaborator, modelled as a function from
the command to its execution outcome. -/

/-- Outcome of actually running a command in the shell: wall-clock
duration in seconds, exit code, and the captured output streams. -/
structure ExecResult where
  duration : Nat
  exitCode : Nat
  stdout : String
  stderr : String
deriving DecidableEq, Repr

/-- Modelled from the spec: the deny-list of destructive command
patterns (e.g. recursive force-delete of root paths). -/
def denyList : List (List Char) :=
  ["rm -rf /".data, "rm -fr /".data, "rm -rf ~".data,
   "mkfs".data, "dd if=".data, "> /dev/sd".data]

/-- A command is dangerous when it contains one of the deny-list
patterns. -/
def isDangerous (cmd : String) : Bool :=
  denyList.any (fun pat => containsList pat cmd.data)

/-- The hard wall-clock per-tool timeout for `bash`, in seconds
(README: "bash commands have a 30-second timeout"). -/
def bashTimeout : Nat := 30

/-- Modelled from the spec: the `bash` tool.  A dangerous command is
refused (`Denied`) before execution; an execution that exceeds the hard
timeout fails with `Timeout`; a non-zero exit code fails with
`NonZeroExit` carrying the captured stdout/stderr as the observation
text; otherwise the stdout is the observation. -/
def bash (run : String → ExecResult) (cmd : String) : Except ToolError String :=
  if isDangerous cmd then Except.error ToolError.Denied
  else
    let r := run cmd
    if bashTimeout < r.duration then Except.error ToolError.Timeout
    else if r.exitCode ≠ 0 then
      Except.error (ToolError.NonZeroExit (r.stdout ++ r.stderr))
    else Except.ok r.stdout

/-! ## ToolCall status lifecycle (spec §3, `src/agent/README.md` schema)

Modelled from the spec: `status (pending → in_progress → completed |
failed, monotonic, no back-transitions)`.  `update_tool_call_status`
is the single store operation that changes a status; it refuses any
transition outside the forward chain. -/

/-- The four persisted tool-call statuses of the database schema. -/
inductive ToolStatus where
  | pending : ToolStatus
  | in_progress : ToolStatus
  | completed : ToolStatus
  | failed : ToolStatus
deriving DecidableEq, Repr, Fintype

/-- Position of a status along the forward chain (the two terminal
statuses share the final position). -/
def statusRank : ToolStatus → Nat
  | ToolStatus.pending => 0
  | ToolStatus.in_progress => 1
  | ToolStatus.completed => 2
  | ToolStatus.failed => 2

/-- `completed` and `failed` are the terminal statuses. -/
def isTerminal : ToolStatus → Bool
  | ToolStatus.completed => true
  | ToolStatus.failed => true
  | _ => false

/-- Modelled from the spec: the only transitions the system ever
performs on a tool-call status — the forward chain
`pending → in_progress → (completed | failed)`. -/
def allowedTransition : ToolStatus → ToolStatus → Bool
  | ToolStatus.pending, ToolStatus.in_progress => true
  | ToolStatus.in_progress, ToolStatus.completed => true
  | ToolStatus.in_progress, ToolStatus.failed => true
  | _, _ => false

/-- Modelled from the spec: `update_tool_call_status` applies a
requested status only when the transition lies on the forward chain,
and otherwise leaves the stored status unchanged. -/
def update_tool_call_status (s req : ToolStatus) : ToolStatus :=
  if allowedTransition s req then req else s

end Agent

/-- C5: the bash tool refuses deny-listed commands with `Denied`
(before any execution), fails with `Timeout` when execution exceeds the
30-second hard wall-clock timeout, and surfaces a non-zero exit code as
`NonZeroExit` carrying the captured stdout/stderr as the observation
text. -/
theorem c5_bash_errors (run : String → Agent.ExecResult) (cmd : String) :
    (Agent.isDangerous cmd = true →
      Agent.bash run cmd = Except.error Agent.ToolError.Denied) ∧
    (Agent.isDangerous cmd = false → Agent.bashTimeout < (run cmd).duration →
      Agent.bash run cmd = Except.error Agent.ToolError.Timeout) ∧
    (Agent.isDangerous cmd = false → (run cmd).duration ≤ Agent.bashTimeout →
      (run cmd).exitCode ≠ 0 →
      Agent.bash run cmd =
        Except.error (Agent.ToolError.NonZeroExit ((run cmd).stdout ++ (run cmd).stderr))) := by
  refine ⟨?_, ?_, ?_⟩
  · intro hd
    simp [Agent.bash, hd]
  · intro hd ht
    simp [Agent.bash, hd, ht]
  · intro hd ht he
    simp [Agent.bash, hd, Nat.not_lt.mpr ht, he]

/-- C5 witness: on a concrete shell, a deny-listed command yields
`Denied`, an over-long sleep yields `Timeout`, and a failing command
yields `NonZeroExit` with its captured output. -/
theorem c5_bash_errors_witness :
    (Agent.bash
      (fun c => if c = "sleep 100" then ⟨100, 0, "", ""⟩
                else if c = "false" then ⟨0, 1, "out", "err"⟩
                else ⟨0, 0, "ok", ""⟩)
      "rm -rf /" = Except.error Agent.ToolError.Denied) ∧
    (Agent.bash
      (fun c => if c = "sleep 100" then ⟨100, 0, "", ""⟩
                else if c = "false" then ⟨0, 1, "out", "err"⟩
                else ⟨0, 0, "ok", ""⟩)
      "sleep 100" = Except.error Agent.ToolError.Timeout) ∧
    (Agent.bash
      (fun c => if c = "sleep 100" then ⟨100, 0, "", ""⟩
                else if c = "false" then ⟨0, 1, "out", "err"⟩
                else ⟨0, 0, "ok", ""⟩)
      "false" = Except.error (Agent.ToolError.NonZeroExit "outerr")) := by
  refine ⟨(c5_bash_errors _ "rm -rf /").1 (by decide),
    (c5_bash_errors _ "sleep 100").2.1 (by decide) (by decide), ?_⟩
  have h := (c5_bash_errors
    (fun c => if c = "sleep 100" then (⟨100, 0, "", ""⟩ : Agent.ExecResult)
              else if c = "false" then ⟨0, 1, "out", "err"⟩
              else ⟨0, 0, "ok", ""⟩)
    "false").2.2 (by decide) (by decide) (by decide)
  simpa using h

/-- C7: a tool-call status only ever moves forward along
`pending → in_progress → (completed | failed)`: every status update is
rank-monotone, any actual change is one of the three forward
transitions, the terminal statuses `completed` and `failed` are fixed
under every further update, and a whole sequence of updates is
rank-monotone. -/
theorem c7_status_monotonic :
    (∀ s req : Agent.ToolStatus,
      Agent.statusRank s ≤ Agent.statusRank (Agent.update_tool_call_status s req)) ∧
    (∀ s req : Agent.ToolStatus, Agent.update_tool_call_status s req ≠ s →
      Agent.allowedTransition s (Agent.update_tool_call_status s req) = true) ∧
    (∀ s req : Agent.ToolStatus,
      Agent.isTerminal s = true → Agent.update_tool_call_status s req = s) ∧
    (∀ (s : Agent.ToolStatus) (reqs : List Agent.ToolStatus),
      Agent.statusRank s ≤
        Agent.statusRank (reqs.foldl Agent.update_tool_call_status s)) := by
  refine ⟨by decide, by decide, by decide, fun s reqs => ?_⟩
  induction reqs generalizing s with
  | nil => simp
  | cons r rest ih =>
    exact le_trans (by revert s r; decide) (ih (Agent.update_tool_call_status s r))

/-- C7 witness: concrete instances — updates are rank-monotone at
`pending`, a refused backward request leaves `completed` unchanged, and
a concrete update sequence is rank-monotone. -/
theorem c7_status_monotonic_witness :
    Agent.statusRank Agent.ToolStatus.pending ≤
      Agent.statusRank
        (Agent.update_tool_call_status Agent.ToolStatus.pending Agent.ToolStatus.in_progress) ∧
    Agent.update_tool_call_status Agent.ToolStatus.completed Agent.ToolStatus.pending =
      Agent.ToolStatus.completed ∧
    Agent.statusRank Agent.ToolStatus.pending ≤
      Agent.statusRank
        ([Agent.ToolStatus.in_progress, Agent.ToolStatus.completed].foldl
          Agent.update_tool_call_status Agent.ToolStatus.pending) :=
  ⟨c7_status_monotonic.1 Agent.ToolStatus.pending Agent.ToolStatus.in_progress,
   c7_status_monotonic.2.2.1 Agent.ToolStatus.completed Agent.ToolStatus.pending (by decide),
   c7_status_monotonic.2.2.2 Agent.ToolStatus.pending
     [Agent.ToolStatus.in_progress, Agent.ToolStatus.completed]⟩

namespace Agent

/-! ## Session resume (spec §4.1)

Modelled from the spec: `resume(identifier_or_name_fragment)` performs
an exact id match first, then a case-insensitive substring match against
names; it signals `NotFoundError` on zero matches and
`AmbiguousMatchError` (listing the candidates) when more than one name
matches the fragment. -/

/-- A session row: identifier, display name, last-activity time. -/
structure Session where
  id : String
  name : String
  lastActivity : Nat
deriving DecidableEq, Repr

/-- Lower-case a character list (case-insensitive comparison). -/
def toLowerList (cs : List Char) : List Char := cs.map Char.toLower

/-- Case-insensitive substring match of the fragment against a session
name. -/
def nameMatches (frag : String) (s : Session) : Bool :=
  containsList (toLowerList frag.data) (toLowerList s.name.data)

/-- Result of `resume`: the session, `NotFoundError`, or
`AmbiguousMatchError` listing the candidate sessions. -/
inductive ResumeResult where
  | ok (s : Session) : ResumeResult
  | notFoundError : ResumeResult
  | ambiguousMatchError (candidates : List Session) : ResumeResult
deriving DecidableEq, Repr

/-- Modelled from the spec: `resume` — exact id match first; only when
that yields nothing, a case-insensitive substring match against names;
zero matches signal `NotFoundError`, several signal
`AmbiguousMatchError` with the candidates. -/
def resume (sessions : List Session) (q : String) : ResumeResult :=
  match sessions.find? (fun s => s.id = q) with
  | some s => ResumeResult.ok s
  | none =>
    match sessions.filter (nameMatches q) with
    | [] => ResumeResult.notFoundError
    | [s] => ResumeResult.ok s
    | cands => ResumeResult.ambiguousMatchError cands

/-! ## Persisted messages and the store invariant (spec §3, §4.6)

Modelled from the spec: the `ConversationMessage` rows of the session
store.  Roles are the five of the schema; a `tool_result` message's
parent must be a `tool_call` message of the same session, and
`append_message` enforces this on every write. -/

/-- The five message roles of the data model. -/
inductive Role where
  | human : Role
  | assistant : Role
  | system : Role
  | tool_call : Role
  | tool_result : Role
deriving DecidableEq, Repr

/-- A persisted conversation message row. -/
structure Msg where
  id : Nat
  sessionId : String
  role : Role
  content : String
  timestamp : Nat
  parentId : Option Nat
deriving DecidableEq, Repr

/-- A `tool_result` message must point (via `parentId`) at a `tool_call`
message of the same session already in the store; other roles are
unconstrained. -/
def parentOk (store : List Msg) (m : Msg) : Bool :=
  match m.role with
  | Role.tool_result =>
    store.any (fun p =>
      some p.id = m.parentId ∧ p.role = Role.tool_call ∧ p.sessionId = m.sessionId)
  | _ => true

/-- Modelled from the spec: `append_message` appends a message row,
rejecting a `tool_result` whose parent is not a `tool_call` of the same
session. -/
def append_message (store : List Msg) (m : Msg) : Except String (List Msg) :=
  if parentOk store m then Except.ok (store ++ [m]) else Except.error "invalid parent"

/-- The persisted-store invariant of C9: every `tool_result` message has
a parent `tool_call` message in the same session. -/
def msgInvariant (store : List Msg) : Prop :=
  ∀ m ∈ store, m.role = Role.tool_result →
    ∃ p ∈ store,
      some p.id = m.parentId ∧ p.role = Role.tool_call ∧ p.sessionId = m.sessionId

instance (store : List Msg) : Decidable (msgInvariant store) := by
  unfold msgInvariant
  infer_instance

end Agent

/-- C8: `resume` tries an exact id match first (an id hit is returned
even if name fragments also match); only with no id hit does it do a
case-insensitive substring match on names, signalling `NotFoundError`
on zero name matches, returning the session on exactly one, and
signalling `AmbiguousMatchError` listing precisely the matching
candidates on more than one. -/
theorem c8_resume_matching (sessions : List Agent.Session) (q : String) :
    (∀ s, sessions.find? (fun s => s.id = q) = some s →
      Agent.resume sessions q = Agent.ResumeResult.ok s) ∧
    (sessions.find? (fun s => s.id = q) = none →
      ((sessions.filter (Agent.nameMatches q) = [] →
        Agent.resume sessions q = Agent.ResumeResult.notFoundError) ∧
      (∀ s, sessions.filter (Agent.nameMatches q) = [s] →
        Agent.resume sessions q = Agent.ResumeResult.ok s) ∧
      (∀ a b rest, sessions.filter (Agent.nameMatches q) = a :: b :: rest →
        Agent.resume sessions q =
          Agent.ResumeResult.ambiguousMatchError (a :: b :: rest)))) := by
  refine ⟨fun s hs => ?_, fun hn => ⟨fun h0 => ?_, fun s h1 => ?_, fun a b rest h2 => ?_⟩⟩
  · simp [Agent.resume, hs]
  · simp [Agent.resume, hn, h0]
  · simp [Agent.resume, hn, h1]
  · simp [Agent.resume, hn, h2]

/-- C8 witness: on a concrete session list, an id hit wins over a name
hit, an unknown fragment signals `NotFoundError`, a unique fragment
resumes the session, and a fragment matching two names signals
`AmbiguousMatchError` listing both. -/
theorem c8_resume_matching_witness :
    Agent.resume [⟨"a1", "Landing Page", 5⟩, ⟨"b2", "a1 experiments", 9⟩] "a1" =
      Agent.ResumeResult.ok ⟨"a1", "Landing Page", 5⟩ ∧
    Agent.resume [⟨"a1", "Landing Page", 5⟩, ⟨"b2", "Buttons", 9⟩] "zzz" =
      Agent.ResumeResult.notFoundError ∧
    Agent.resume [⟨"a1", "Landing Page", 5⟩, ⟨"b2", "Buttons", 9⟩] "landing" =
      Agent.ResumeResult.ok ⟨"a1", "Landing Page", 5⟩ ∧
    Agent.resume [⟨"a1", "Landing Page", 5⟩, ⟨"b2", "Page Buttons", 9⟩] "page" =
      Agent.ResumeResult.ambiguousMatchError
        [⟨"a1", "Landing Page", 5⟩, ⟨"b2", "Page Buttons", 9⟩] := by
  refine ⟨(c8_resume_matching _ "a1").1 _ (by decide),
    ((c8_resume_matching _ "zzz").2 (by decide)).1 (by decide),
    ((c8_resume_matching _ "landing").2 (by decide)).2.1 _ (by decide),
    ((c8_resume_matching _ "page").2 (by decide)).2.2 _ _ [] (by decide)⟩

/-- C9: every persisted message's role is one of exactly
`{human, assistant, system, tool_call, tool_result}`, and
`append_message` preserves the invariant that a `tool_result` message's
parent is a `tool_call` message of the same session (it refuses any
append that would break it). -/
theorem c9_message_roles_and_parents (store store' : List Agent.Msg) (m : Agent.Msg) :
    (m.role = Agent.Role.human ∨ m.role = Agent.Role.assistant ∨
      m.role = Agent.Role.system ∨ m.role = Agent.Role.tool_call ∨
      m.role = Agent.Role.tool_result) ∧
    (Agent.msgInvariant store → Agent.append_message store m = Except.ok store' →
      Agent.msgInvariant store') := by
  constructor
  · cases h : m.role <;> simp
  · intro hinv happ
    unfold Agent.append_message at happ
    by_cases hok : Agent.parentOk store m
    · simp [hok] at happ
      subst happ
      intro x hx hrole
      rcases List.mem_append.mp hx with hx | hx
      · obtain ⟨p, hp, hprop⟩ := hinv x hx hrole
        exact ⟨p, List.mem_append.mpr (Or.inl hp), hprop⟩
      · have hxm : x = m := by simpa using hx
        subst hxm
        unfold Agent.parentOk at hok
        rw [hrole] at hok
        simp only [List.any_eq_true, decide_eq_true_eq] at hok
        obtain ⟨p, hp, hprop⟩ := hok
        exact ⟨p, List.mem_append.mpr (Or.inl hp), by simpa using hprop⟩
    · simp [hok] at happ

/-- C9 witness: a concrete store satisfying the invariant still
satisfies it after appending a well-linked `tool_result`, and the
role of the appended message is among the five schema roles. -/
theorem c9_message_roles_and_parents_witness :
    (Agent.Msg.role ⟨2, "s", Agent.Role.tool_result, "ok", 2, some 1⟩ =
        Agent.Role.human ∨
      Agent.Msg.role ⟨2, "s", Agent.Role.tool_result, "ok", 2, some 1⟩ =
        Agent.Role.assistant ∨
      Agent.Msg.role ⟨2, "s", Agent.Role.tool_result, "ok", 2, some 1⟩ =
        Agent.Role.system ∨
      Agent.Msg.role ⟨2, "s", Agent.Role.tool_result, "ok", 2, some 1⟩ =
        Agent.Role.tool_call ∨
      Agent.Msg.role ⟨2, "s", Agent.Role.tool_result, "ok", 2, some 1⟩ =
        Agent.Role.tool_result) ∧
    Agent.msgInvariant
      [⟨1, "s", Agent.Role.tool_call, "list_dir", 1, none⟩,
       ⟨2, "s", Agent.Role.tool_result, "ok", 2, some 1⟩] :=
  ⟨(c9_message_roles_and_parents [] [] _).1,
   (c9_message_roles_and_parents
      [⟨1, "s", Agent.Role.tool_call, "list_dir", 1, none⟩]
      [⟨1, "s", Agent.Role.tool_call, "list_dir", 1, none⟩,
       ⟨2, "s", Agent.Role.tool_result, "ok", 2, some 1⟩]
      ⟨2, "s", Agent.Role.tool_result, "ok", 2, some 1⟩).2
    (by decide) (by rfl)⟩

namespace Agent

/-! ## Session store write log and crash recovery (spec §4.6)

Modelled from the spec: all writes for a single turn (assistant message
+ optional tool call + tool result) are committed as one atomic
transaction.  The durable store is therefore modelled as the result of
replaying a log of whole transactions; a crash point is an index into
that log, so a partially applied transaction is never visible.  On
restart, any `ToolCall` found `in_progress` is reconciled to `failed`
with reason "interrupted" before the session is resumed. -/

/-- A persisted tool-call row (the fields C2 is about). -/
structure ToolCallRow where
  id : Nat
  conversationId : Nat
  sessionId : String
  toolName : String
  status : ToolStatus
  errorMessage : Option String
deriving DecidableEq, Repr

/-- The durable state: message rows and tool-call rows. -/
structure Store where
  msgs : List Msg
  toolCalls : List ToolCallRow
deriving DecidableEq, Repr

/-- One durable write inside a transaction. -/
inductive WriteOp where
  | appendMsg (m : Msg) : WriteOp
  | createToolCall (tc : ToolCallRow) : WriteOp
  | setStatus (id : Nat) (st : ToolStatus) (err : Option String) : WriteOp
deriving DecidableEq, Repr

/-- A transaction: the writes of one turn, committed atomically. -/
abbrev Txn := List WriteOp

/-- Apply one write to the store.  `setStatus` goes through
`update_tool_call_status`, so it also respects the forward-only status
chain. -/
def applyOp (s : Store) : WriteOp → Store
  | WriteOp.appendMsg m => { s with msgs := s.msgs ++ [m] }
  | WriteOp.createToolCall tc => { s with toolCalls := s.toolCalls ++ [tc] }
  | WriteOp.setStatus i st err =>
    { s with
      toolCalls := s.toolCalls.map (fun tc =>
        if tc.id = i then
          { tc with
            status := update_tool_call_status tc.status st
            errorMessage :=
              if update_tool_call_status tc.status st = tc.status then tc.errorMessage
              else err }
        else tc) }

/-- Apply a whole transaction atomically. -/
def applyTxn (s : Store) (t : Txn) : Store := t.foldl applyOp s

/-- Replay a committed log of transactions from the empty store. -/
def replayLog (log : List Txn) : Store :=
  log.foldl applyTxn ⟨[], []⟩

/-- Modelled from the spec: the restart reconciliation — every
`in_progress` tool call becomes `failed` with reason "interrupted";
nothing else changes. -/
def reconcileRow (tc : ToolCallRow) : ToolCallRow :=
  if tc.status = ToolStatus.in_progress then
    { tc with status := ToolStatus.failed, errorMessage := some "interrupted" }
  else tc

/-- Modelled from the spec: the store visible after resuming from a
crash that happened after `k` whole transactions were durably
committed. -/
def resumeAfterCrash (log : List Txn) (k : Nat) : Store :=
  let s := replayLog (log.take k)
  { s with toolCalls := s.toolCalls.map reconcileRow }

end Agent

/-- C2: resuming after a crash shows exactly the history durably
committed before the crash — the message rows are exactly those of the
committed whole transactions (a partial turn is never visible), and the
tool-call rows are those committed rows with every `in_progress` one
reconciled to `failed` with reason "interrupted" (all other rows
untouched), so no `in_progress` tool call survives a restart. -/
theorem c2_crash_recovery (log : List Agent.Txn) (k : Nat) :
    (Agent.resumeAfterCrash log k).msgs = (Agent.replayLog (log.take k)).msgs ∧
    (Agent.resumeAfterCrash log k).toolCalls =
      (Agent.replayLog (log.take k)).toolCalls.map Agent.reconcileRow ∧
    (∀ tc ∈ (Agent.replayLog (log.take k)).toolCalls,
      tc.status = Agent.ToolStatus.in_progress →
        { tc with
          status := Agent.ToolStatus.failed,
          errorMessage := some "interrupted" } ∈ (Agent.resumeAfterCrash log k).toolCalls) ∧
    (∀ tc ∈ (Agent.replayLog (log.take k)).toolCalls,
      tc.status ≠ Agent.ToolStatus.in_progress →
        tc ∈ (Agent.resumeAfterCrash log k).toolCalls) ∧
    (∀ tc ∈ (Agent.resumeAfterCrash log k).toolCalls,
      tc.status ≠ Agent.ToolStatus.in_progress) := by
  refine ⟨rfl, rfl, ?_, ?_, ?_⟩
  · intro tc htc hst
    have : Agent.reconcileRow tc =
        { tc with
          status := Agent.ToolStatus.failed, errorMessage := some "interrupted" } := by
      simp [Agent.reconcileRow, hst]
    exact this ▸ List.mem_map_of_mem Agent.reconcileRow htc
  · intro tc htc hst
    have : Agent.reconcileRow tc = tc := by simp [Agent.reconcileRow, hst]
    exact this ▸ List.mem_map_of_mem Agent.reconcileRow htc
  · intro tc htc
    simp only [Agent.resumeAfterCrash, List.mem_map] at htc
    obtain ⟨tc0, _, heq⟩ := htc
    subst heq
    unfold Agent.reconcileRow
    by_cases h : tc0.status = Agent.ToolStatus.in_progress <;> simp [h]

/-- C2 witness: a concrete two-transaction log crashed after its first
transaction — the committed assistant message and tool call are visible,
the `in_progress` tool call is reconciled to `failed` with reason
"interrupted", and the uncommitted second transaction is invisible. -/
theorem c2_crash_recovery_witness :
    (Agent.resumeAfterCrash
        [[Agent.WriteOp.appendMsg ⟨1, "s", Agent.Role.assistant, "use list_dir", 1, none⟩,
          Agent.WriteOp.createToolCall
            ⟨10, 1, "s", "list_dir", Agent.ToolStatus.in_progress, none⟩],
         [Agent.WriteOp.appendMsg ⟨2, "s", Agent.Role.tool_result, "ok", 2, some 1⟩,
          Agent.WriteOp.setStatus 10 Agent.ToolStatus.completed none]] 1).msgs =
      [⟨1, "s", Agent.Role.assistant, "use list_dir", 1, none⟩] ∧
    (∀ tc ∈ (Agent.replayLog
        ([[Agent.WriteOp.appendMsg ⟨1, "s", Agent.Role.assistant, "use list_dir", 1, none⟩,
           Agent.WriteOp.createToolCall
             ⟨10, 1, "s", "list_dir", Agent.ToolStatus.in_progress, none⟩],
          [Agent.WriteOp.appendMsg ⟨2, "s", Agent.Role.tool_result, "ok", 2, some 1⟩,
           Agent.WriteOp.setStatus 10 Agent.ToolStatus.completed none]].take 1)).toolCalls,
      tc.status = Agent.ToolStatus.in_progress →
        { tc with
          status := Agent.ToolStatus.failed,
          errorMessage := some "interrupted" } ∈
          (Agent.resumeAfterCrash
            [[Agent.WriteOp.appendMsg ⟨1, "s", Agent.Role.assistant, "use list_dir", 1, none⟩,
              Agent.WriteOp.createToolCall
                ⟨10, 1, "s", "list_dir", Agent.ToolStatus.in_progress, none⟩],
             [Agent.WriteOp.appendMsg ⟨2, "s", Agent.Role.tool_result, "ok", 2, some 1⟩,
              Agent.WriteOp.setStatus 10 Agent.ToolStatus.completed none]] 1).toolCalls) :=
  ⟨by rfl,
   (c2_crash_recovery
      [[Agent.WriteOp.appendMsg ⟨1, "s", Agent.Role.assistant, "use list_dir", 1, none⟩,
        Agent.WriteOp.createToolCall
          ⟨10, 1, "s", "list_dir", Agent.ToolStatus.in_progress, none⟩],
       [Agent.WriteOp.appendMsg ⟨2, "s", Agent.Role.tool_result, "ok", 2, some 1⟩,
        Agent.WriteOp.setStatus 10 Agent.ToolStatus.completed none]] 1).2.2.1⟩

namespace ChatInterface

/-! ## The frontend `ChatInterface` component
(`src/src/components/ChatInterface.tsx`)

Embedded from the source: the component state relevant to
`handleSendMessage` is the `messages` list and the `inputValue` string;
sending appends a user message carrying the raw input, clears the
input, and schedules (via `setTimeout(..., 1000)`) a canned AI
response — unless the trimmed input is empty, in which case the handler
returns immediately. -/

/-- `Message.sender` in the component: `'user' | 'ai'`. -/
inductive Sender where
  | user : Sender
  | ai : Sender
deriving DecidableEq, Repr

/-- The component's `Message` record. -/
structure Message where
  id : String
  content : String
  sender : Sender
  timestamp : Nat
deriving DecidableEq, Repr

/-- The component state touched by `handleSendMessage`. -/
structure ChatState where
  messages : List Message
  inputValue : String
deriving DecidableEq, Repr

/-- A `setTimeout`-scheduled append of an AI message. -/
structure Scheduled where
  delayMs : Nat
  message : Message
deriving DecidableEq, Repr

/-- The canned AI reply text of the component. -/
def aiReplyText : String :=
  "I understand what you need. Let me implement that for you right away!"

/-- `!inputValue.trim()` of the source: the string is empty or all
whitespace. -/
def trimmedEmpty (s : String) : Bool := s.data.all Char.isWhitespace

/-- Embedded from `handleSendMessage` in
`src/src/components/ChatInterface.tsx` (lines 69–92): guard on
`!inputValue.trim()`, append the user message (with the raw, untrimmed
input as content and `Date.now()` as id), clear the input, and schedule
the AI response after 1000 ms. -/
def handleSendMessage (now : Nat) (st : ChatState) : ChatState × Option Scheduled :=
  if trimmedEmpty st.inputValue then (st, none)
  else
    let newMessage : Message := ⟨toString now, st.inputValue, Sender.user, now⟩
    ({ messages := st.messages ++ [newMessage], inputValue := "" },
     some ⟨1000, ⟨toString (now + 1), aiReplyText, Sender.ai, now⟩⟩)

end ChatInterface

/-- C10: when the input value is empty or consists only of whitespace,
`handleSendMessage` leaves the whole chat state unchanged — no user
message is appended, no AI response is scheduled, and the input value
is untouched. -/
theorem c10_empty_input_noop (now : Nat) (st : ChatInterface.ChatState)
    (h : ChatInterface.trimmedEmpty st.inputValue = true) :
    ChatInterface.handleSendMessage now st = (st, none) := by
  simp [ChatInterface.handleSendMessage, h]

/-- C10 witness: a whitespace-only input (`"  \t "`) with a nonempty
message list is left exactly as it is and nothing is scheduled. -/
theorem c10_empty_input_noop_witness :
    ChatInterface.handleSendMessage 7
      ⟨[⟨"1", "hi", ChatInterface.Sender.ai, 0⟩], "  \t "⟩ =
      (⟨[⟨"1", "hi", ChatInterface.Sender.ai, 0⟩], "  \t "⟩, none) :=
  c10_empty_input_noop 7 _ (by decide)

namespace Agent

/-! ## Action Parser (spec §4.3, README "Built-in Tool Call Format")

Modelled from the spec: the parser recognises a single fixed textual
convention — a labelled `Action` directive of the form
`**Action:** Use <tool> with parameters: { ... }` — and a
`Final Answer:` convention; anything else is `Unparseable` carrying the
raw text.  It is a total function: parsing never raises. -/

/-- The suffix of the haystack after the first occurrence of `marker`,
or `none` when the marker does not occur. -/
def afterSeq (marker : List Char) : List Char → Option (List Char)
  | [] => if marker.isEmpty then some [] else none
  | c :: rest =>
    if marker.isPrefixOf (c :: rest) then some ((c :: rest).drop marker.length)
    else afterSeq marker rest

/-- Everything up to and including the last occurrence of `c`, or
`none` when `c` does not occur. -/
def upToLast (c : Char) : List Char → Option (List Char)
  | [] => none
  | x :: rest =>
    match upToLast c rest with
    | some r => some (x :: r)
    | none => if x = c then some [x] else none

/-- Extract the labelled Action directive: the tool name after `Use `
and the brace-delimited parameter block after `with parameters:`. -/
def extractAction (cs : List Char) : Option (String × String) :=
  match afterSeq "Action:".data cs with
  | none => none
  | some r1 =>
    match afterSeq "Use ".data r1 with
    | none => none
    | some r2 =>
      let name := r2.takeWhile (fun c => c ≠ ' ')
      match afterSeq "with parameters:".data r2 with
      | none => none
      | some r3 =>
        match afterSeq ['\x7b'] r3 with
        | none => none
        | some r4 =>
          match upToLast '\x7d' r4 with
          | none => none
          | some body => some (String.mk name, String.mk ('\x7b' :: body))

/-- Extract the final-answer convention: the text after the
`Final Answer:` label. -/
def extractFinal (cs : List Char) : Option String :=
  match afterSeq "Final Answer:".data cs with
  | none => none
  | some r => some (String.mk r)

/-- The three parse outcomes of spec §4.3. -/
inductive ActionDirective where
  | toolCall (name : String) (parameters : String) : ActionDirective
  | finalAnswer (text : String) : ActionDirective
  | unparseable (raw : String) : ActionDirective
deriving DecidableEq, Repr

/-- Modelled from the spec: `parse(completion)` — the Action convention
first, then the final-answer convention, and `Unparseable` with the raw
text otherwise.  A total function, so no exception can escape into the
loop. -/
def parse (completion : String) : ActionDirective :=
  match extractAction completion.data with
  | some (n, p) => ActionDirective.toolCall n p
  | none =>
    match extractFinal completion.data with
    | some t => ActionDirective.finalAnswer t
    | none => ActionDirective.unparseable completion

/-! ## Loop Controller (spec §4.4)

Modelled from the spec: `THINK → ACT → OBSERVE` driven by a Reasoning
Client (an external collaborator, modelled as the sequence of its
completions), bounded by `max_turns` and by
`max_parse_retries_per_turn`; tool execution is abstracted by an
executor from tool name and parameters to the observation text. -/

/-- Final loop statuses. -/
inductive LoopStatus where
  | DONE : LoopStatus
  | ABORTED : LoopStatus
deriving DecidableEq, Repr

/-- The scripted Reasoning Client: the completion returned for the
`n`-th reasoning call. -/
abbrev ReasoningClient := Nat → String

/-- Loop configuration: the hard iteration cap and the per-turn cap on
`Unparseable` recoveries. -/
structure LoopConfig where
  max_turns : Nat
  max_parse_retries_per_turn : Nat
deriving DecidableEq, Repr

/-- Result of a loop run: final status, number of executed turns, the
accumulated observation history, and the abort reason if any. -/
structure LoopResult where
  status : LoopStatus
  turnsExecuted : Nat
  history : List String
  reason : Option String
deriving DecidableEq, Repr

/-- The THINK phase of one turn: call the client and parse, retrying on
`Unparseable` while the per-turn retry budget lasts; `none` when the
budget is exceeded.  Returns the directive and the next call index. -/
def attemptParse (client : ReasoningClient) :
    Nat → Nat → Option (ActionDirective × Nat)
  | callIdx, retriesLeft =>
    match parse (client callIdx), retriesLeft with
    | ActionDirective.unparseable _, 0 => none
    | ActionDirective.unparseable _, r + 1 => attemptParse client (callIdx + 1) r
    | d, _ => some (d, callIdx + 1)

/-- Modelled from the spec: the turn loop.  `fuel` is the number of
turns still allowed; exhausting it aborts with the partial history
retained; exceeding the parse-retry budget aborts the run; a final
answer finishes `DONE`; a tool call executes and the observation is
appended before the next turn. -/
def runLoop (cfg : LoopConfig) (client : ReasoningClient)
    (exec : String → String → String) :
    Nat → Nat → Nat → List String → LoopResult
  | 0, _, turnsDone, hist =>
    ⟨LoopStatus.ABORTED, turnsDone, hist, some "max_turns reached"⟩
  | fuel + 1, callIdx, turnsDone, hist =>
    match attemptParse client callIdx cfg.max_parse_retries_per_turn with
    | none =>
      ⟨LoopStatus.ABORTED, turnsDone, hist, some "unparseable output exceeded retries"⟩
    | some (ActionDirective.finalAnswer t, _) =>
      ⟨LoopStatus.DONE, turnsDone + 1, hist ++ [t], none⟩
    | some (ActionDirective.toolCall n p, idx) =>
      runLoop cfg client exec fuel idx (turnsDone + 1) (hist ++ [exec n p])
    | some (ActionDirective.unparseable _, _) =>
      ⟨LoopStatus.ABORTED, turnsDone, hist, some "unparseable"⟩

/-- Run the loop from the initial state with the full `max_turns`
budget. -/
def runAgent (cfg : LoopConfig) (client : ReasoningClient)
    (exec : String → String → String) : LoopResult :=
  runLoop cfg client exec cfg.max_turns 0 0 []

end Agent

/-- C4: `parse` yields exactly one of `toolCall`, `finalAnswer` or
`unparseable`; every completion matching neither the labelled Action
convention nor the final-answer convention yields `unparseable` carrying
the raw text; and `parse` is a total function, so parsing never raises
an exception that escapes the loop. -/
theorem c4_parse_trichotomy (s : String) :
    (∃ n p, Agent.extractAction s.data = some (n, p) ∧
      Agent.parse s = Agent.ActionDirective.toolCall n p) ∨
    (Agent.extractAction s.data = none ∧
      ∃ t, Agent.extractFinal s.data = some t ∧
        Agent.parse s = Agent.ActionDirective.finalAnswer t) ∨
    (Agent.extractAction s.data = none ∧ Agent.extractFinal s.data = none ∧
      Agent.parse s = Agent.ActionDirective.unparseable s) := by
  unfold Agent.parse
  cases ha : Agent.extractAction s.data with
  | some np =>
    exact Or.inl ⟨np.1, np.2, rfl, by simp⟩
  | none =>
    cases hf : Agent.extractFinal s.data with
    | some t => exact Or.inr (Or.inl ⟨rfl, t, rfl, by simp⟩)
    | none => exact Or.inr (Or.inr ⟨rfl, rfl, by simp⟩)

namespace Agent

/-- On a completion that parses as a tool call, the THINK phase
succeeds immediately whatever the remaining retry budget. -/
theorem attemptParse_toolCall (client : ReasoningClient) (callIdx retriesLeft : Nat)
    (n p : String) (h : parse (client callIdx) = ActionDirective.toolCall n p) :
    attemptParse client callIdx retriesLeft =
      some (ActionDirective.toolCall n p, callIdx + 1) := by
  unfold attemptParse
  rw [h]

/-- For a client whose completions always parse as tool calls, the loop
consumes its whole fuel one turn at a time and aborts having retained
one observation per executed turn. -/
theorem runLoop_tool_only (cfg : LoopConfig) (client : ReasoningClient)
    (exec : String → String → String)
    (h : ∀ i, ∃ n p, parse (client i) = ActionDirective.toolCall n p) :
    ∀ fuel callIdx turnsDone hist,
      (runLoop cfg client exec fuel callIdx turnsDone hist).status = LoopStatus.ABORTED ∧
      (runLoop cfg client exec fuel callIdx turnsDone hist).turnsExecuted =
        turnsDone + fuel ∧
      (runLoop cfg client exec fuel callIdx turnsDone hist).history.length =
        hist.length + fuel := by
  intro fuel
  induction fuel with
  | zero => intro callIdx turnsDone hist; simp [runLoop]
  | succ f ih =>
    intro callIdx turnsDone hist
    obtain ⟨n, p, hp⟩ := h callIdx
    have ha := attemptParse_toolCall client callIdx cfg.max_parse_retries_per_turn n p hp
    have hr : runLoop cfg client exec (f + 1) callIdx turnsDone hist =
        runLoop cfg client exec f (callIdx + 1) (turnsDone + 1) (hist ++ [exec n p]) := by
      simp only [runLoop]
      rw [ha]
    rw [hr]
    obtain ⟨h1, h2, h3⟩ := ih (callIdx + 1) (turnsDone + 1) (hist ++ [exec n p])
    simp only [List.length_append, List.length_cons, List.length_nil] at h3
    exact ⟨h1, by omega, by omega⟩

end Agent

/-- C3 counterexample: the claim fails as stated.  The scripted client
returning the unparseable completion `"garbage"` on every call never
parses as a final answer, yet with `max_turns = 3` and
`max_parse_retries_per_turn = 2` the loop aborts during its first turn
with reason "unparseable output exceeded retries", having executed `0`
turns rather than `max_turns = 3`. -/
theorem c3_loop_budget_counterexample :
    (∀ (n : Nat) (t : String),
      Agent.parse ((fun _ => "garbage") n) ≠ Agent.ActionDirective.finalAnswer t) ∧
    Agent.runAgent ⟨3, 2⟩ (fun _ => "garbage") (fun _ _ => "obs") =
      ⟨Agent.LoopStatus.ABORTED, 0, [], some "unparseable output exceeded retries"⟩ ∧
    (Agent.runAgent ⟨3, 2⟩ (fun _ => "garbage") (fun _ _ => "obs")).turnsExecuted ≠ 3 := by
  have hg : Agent.parse "garbage" = Agent.ActionDirective.unparseable "garbage" := rfl
  refine ⟨fun n t => ?_, by decide, by decide⟩
  intro hc
  rw [hg] at hc
  exact Agent.ActionDirective.noConfusion hc

/-- C3 (amended): for every configuration and every Reasoning Client
whose completions always parse as tool-call directives (so they never
parse as a final answer and never exhaust the per-turn parse-retry
budget), the loop executes exactly `max_turns` turns and terminates
`ABORTED`, with the partial history — one observation per executed
turn — retained for inspection rather than discarded. -/
theorem c3_loop_budget (cfg : Agent.LoopConfig) (client : Agent.ReasoningClient)
    (exec : String → String → String)
    (h : ∀ i, ∃ n p, Agent.parse (client i) = Agent.ActionDirective.toolCall n p) :
    (Agent.runAgent cfg client exec).status = Agent.LoopStatus.ABORTED ∧
    (Agent.runAgent cfg client exec).turnsExecuted = cfg.max_turns ∧
    (Agent.runAgent cfg client exec).history.length = cfg.max_turns := by
  obtain ⟨h1, h2, h3⟩ :=
    Agent.runLoop_tool_only cfg client exec h cfg.max_turns 0 0 []
  exact ⟨h1, by simpa using h2, by simpa using h3⟩

/-- C3 witness: a concrete scripted client that always requests
`list_dir` runs for exactly `max_turns = 2` turns, aborts, and retains
both observations. -/
theorem c3_loop_budget_witness :
    (Agent.runAgent ⟨2, 1⟩
      (fun _ => "**Action:** Use list_dir with parameters: \x7b\"path\": \".\"\x7d")
      (fun _ _ => "obs")).status = Agent.LoopStatus.ABORTED ∧
    (Agent.runAgent ⟨2, 1⟩
      (fun _ => "**Action:** Use list_dir with parameters: \x7b\"path\": \".\"\x7d")
      (fun _ _ => "obs")).turnsExecuted = 2 ∧
    (Agent.runAgent ⟨2, 1⟩
      (fun _ => "**Action:** Use list_dir with parameters: \x7b\"path\": \".\"\x7d")
      (fun _ _ => "obs")).history.length = 2 :=
  c3_loop_budget ⟨2, 1⟩
    (fun _ => "**Action:** Use list_dir with parameters: \x7b\"path\": \".\"\x7d")
    (fun _ _ => "obs")
    (fun _ => ⟨"list_dir", "\x7b\"path\": \".\"\x7d", rfl⟩)

namespace Agent

/-! ## Context Builder (spec §4.2)

Modelled from the spec: `build(session, token_budget)` always includes
the system instruction message and the most recent message, then
greedily includes prior messages in reverse-chronological order within
the budget; a tool-call/tool-result pair is treated as an atomic unit,
dropped together when the budget cannot fit both.  In the persisted
histories this builder runs on, a `tool_result` row is committed in the
same turn as — immediately after — its `tool_call` row (spec §4.4 step 5
and §4.6), which is the well-formedness `wfHistory` below. -/

/-- An atomic context unit: a lone message, or a tool-call/tool-result
pair that truncation must keep or drop together. -/
inductive CtxUnit where
  | single (m : Msg) : CtxUnit
  | pair (call : Msg) (result : Msg) : CtxUnit
deriving DecidableEq, Repr

/-- The messages of a unit, in chronological order. -/
def unitMsgs : CtxUnit → List Msg
  | CtxUnit.single m => [m]
  | CtxUnit.pair c r => [c, r]

/-- The estimated size of a unit (content length, the usual token
estimate stand-in). -/
def unitCost : CtxUnit → Nat
  | CtxUnit.single m => m.content.length
  | CtxUnit.pair c r => c.content.length + r.content.length

/-- `r` is the tool-result row produced by the tool-call row `c`. -/
def isPairHead (c r : Msg) : Bool :=
  decide (c.role = Role.tool_call) && decide (r.role = Role.tool_result) &&
    decide (r.parentId = some c.id)

/-- Group a chronological history into atomic context units, pairing
each `tool_call` row with the `tool_result` row committed right after
it. -/
def toUnits : List Msg → List CtxUnit
  | [] => []
  | [m] => [CtxUnit.single m]
  | c :: r :: rest =>
    if isPairHead c r then CtxUnit.pair c r :: toUnits rest
    else CtxUnit.single c :: toUnits (r :: rest)

/-- Greedily keep units while their cumulative cost stays within the
budget, stopping at the first unit that does not fit (spec §4.2:
"until the cumulative estimated size would exceed the budget, at which
point it stops"). -/
def takeWithin : Nat → List CtxUnit → List CtxUnit
  | _, [] => []
  | budget, u :: rest =>
    if unitCost u ≤ budget then u :: takeWithin (budget - unitCost u) rest
    else []

/-- Select units from the reverse-chronological unit list: the most
recent unit is always included, then prior units greedily within the
remaining budget. -/
def buildUnits : Nat → List CtxUnit → List CtxUnit
  | _, [] => []
  | budget, u :: rest => u :: takeWithin (budget - unitCost u) rest

/-- Modelled from the spec: the Context Builder.  The system
instruction message first, then the selected units back in
chronological order. -/
def build (budget : Nat) (sys : Msg) (history : List Msg) : List Msg :=
  sys :: ((buildUnits budget (toUnits history).reverse).reverse.map unitMsgs).flatten

/-- Well-formedness of a stored history as the loop commits it: each
`tool_result` row immediately follows the `tool_call` row that produced
it (`wfFrom prev l` checks `l` whose chronological predecessor is
`prev`). -/
def wfFrom : Msg → List Msg → Bool
  | _, [] => true
  | prev, m :: rest =>
    (if m.role = Role.tool_result then isPairHead prev m else true) && wfFrom m rest

/-- A whole history is well-formed when it does not start with a
`tool_result` and every `tool_result` immediately follows its
`tool_call`. -/
def wfHistory : List Msg → Bool
  | [] => true
  | m :: rest => decide (¬ m.role = Role.tool_result) && wfFrom m rest

/-- Unfold `isPairHead` into its three conjuncts. -/
theorem isPairHead_props {c r : Msg} (h : isPairHead c r = true) :
    c.role = Role.tool_call ∧ r.role = Role.tool_result ∧ r.parentId = some c.id := by
  simpa [isPairHead, Bool.and_eq_true, decide_eq_true_eq, and_assoc] using h

/-- Anything `takeWithin` keeps was in the input list. -/
theorem takeWithin_subset :
    ∀ (l : List CtxUnit) (b : Nat) (u : CtxUnit), u ∈ takeWithin b l → u ∈ l := by
  intro l
  induction l with
  | nil => intro b u h; simp [takeWithin] at h
  | cons x rest ih =>
    intro b u h
    unfold takeWithin at h
    by_cases hc : unitCost x ≤ b
    · simp only [hc, if_pos] at h
      rcases List.mem_cons.mp h with h | h
      · exact h ▸ List.mem_cons_self x rest
      · exact List.mem_cons_of_mem x (ih _ u h)
    · simp [hc] at h

/-- Anything `buildUnits` keeps was in the input list. -/
theorem buildUnits_subset (l : List CtxUnit) (b : Nat) (u : CtxUnit)
    (h : u ∈ buildUnits b l) : u ∈ l := by
  cases l with
  | nil => simp [buildUnits] at h
  | cons x rest =>
    unfold buildUnits at h
    rcases List.mem_cons.mp h with h | h
    · exact h ▸ List.mem_cons_self x rest
    · exact List.mem_cons_of_mem x (takeWithin_subset rest _ u h)

/-- After a `tool_result` row, a well-formed tail is itself a
well-formed history (its first row cannot be another `tool_result`). -/
theorem wfHistory_of_wfFrom_result (prev : Msg) (hprev : prev.role = Role.tool_result)
    (l : List Msg) (h : wfFrom prev l = true) : wfHistory l = true := by
  cases l with
  | nil => rfl
  | cons x rest =>
    unfold wfFrom at h
    rw [Bool.and_eq_true] at h
    obtain ⟨h1, h2⟩ := h
    by_cases hx : x.role = Role.tool_result
    · rw [if_pos hx] at h1
      obtain ⟨hc, _, _⟩ := isPairHead_props h1
      rw [hprev] at hc
      exact absurd hc (by simp)
    · unfold wfHistory
      rw [Bool.and_eq_true]
      exact ⟨by simpa using hx, h2⟩

/-- After a row that is not the head of a pair, a well-formed tail whose
head is not a `tool_result` is a well-formed history. -/
theorem wfHistory_of_wfFrom_nonresult (prev : Msg) (l : List Msg)
    (hhead : ∀ x rest, l = x :: rest → ¬ x.role = Role.tool_result)
    (h : wfFrom prev l = true) : wfHistory l = true := by
  cases l with
  | nil => rfl
  | cons x rest =>
    unfold wfFrom at h
    rw [Bool.and_eq_true] at h
    unfold wfHistory
    rw [Bool.and_eq_true]
    exact ⟨by simpa using hhead x rest rfl, h.2⟩

/-- Soundness of the unit grouping on well-formed histories: a single
unit never holds a `tool_result` row, and a pair unit really is a
tool-call row with the tool-result row it produced. -/
theorem toUnits_sound (l : List Msg) (hwf : wfHistory l = true) :
    ∀ u ∈ toUnits l,
      (∀ m, u = CtxUnit.single m → ¬ m.role = Role.tool_result) ∧
      (∀ c r, u = CtxUnit.pair c r → isPairHead c r = true) := by
  induction l using toUnits.induct with
  | case1 =>
    intro u hu
    simp [toUnits] at hu
  | case2 m =>
    intro u hu
    simp only [toUnits, List.mem_singleton] at hu
    subst hu
    refine ⟨fun m' hm' => ?_, fun c r hcr => by exact absurd hcr (by simp)⟩
    cases hm'
    unfold wfHistory at hwf
    rw [Bool.and_eq_true] at hwf
    simpa using hwf.1
  | case3 c r rest hpair ih =>
    intro u hu
    unfold toUnits at hu
    rw [if_pos hpair] at hu
    rcases List.mem_cons.mp hu with hu | hu
    · subst hu
      exact ⟨fun m' hm' => absurd hm' (by simp),
        fun c' r' hcr => by injection hcr with h1 h2; subst h1; subst h2; exact hpair⟩
    · have hrrole : r.role = Role.tool_result := (isPairHead_props hpair).2.1
      unfold wfHistory at hwf
      rw [Bool.and_eq_true] at hwf
      have hfrom : wfFrom c (r :: rest) = true := hwf.2
      unfold wfFrom at hfrom
      rw [Bool.and_eq_true] at hfrom
      have hrest : wfHistory rest = true :=
        wfHistory_of_wfFrom_result r hrrole rest hfrom.2
      exact ih hrest u hu
  | case4 c r rest hpair ih =>
    intro u hu
    unfold toUnits at hu
    rw [if_neg hpair] at hu
    unfold wfHistory at hwf
    rw [Bool.and_eq_true] at hwf
    have hfrom : wfFrom c (r :: rest) = true := hwf.2
    unfold wfFrom at hfrom
    rw [Bool.and_eq_true] at hfrom
    have hrnot : ¬ r.role = Role.tool_result := by
      intro hr
      rw [if_pos hr] at hfrom
      exact hpair hfrom.1
    rcases List.mem_cons.mp hu with hu | hu
    · subst hu
      refine ⟨fun m' hm' => ?_, fun c' r' hcr => absurd hcr (by simp)⟩
      cases hm'
      simpa using hwf.1
    · have hrest : wfHistory (r :: rest) = true := by
        unfold wfHistory
        rw [Bool.and_eq_true]
        exact ⟨by simpa using hrnot, hfrom.2⟩
      exact ih hrest u hu

end Agent

/-- C6: for every budget and every well-formed history (each
`tool_result` row immediately follows the `tool_call` row that produced
it, as the loop commits them), the prompt the Context Builder returns
never contains a `tool_result` message without the `tool_call` message
that produced it: pairs are kept or dropped together. -/
theorem c6_no_orphan_tool_result (budget : Nat) (sys : Agent.Msg)
    (history : List Agent.Msg) (hsys : sys.role = Agent.Role.system)
    (hwf : Agent.wfHistory history = true) :
    ∀ m ∈ Agent.build budget sys history, m.role = Agent.Role.tool_result →
      ∃ c ∈ Agent.build budget sys history,
        c.role = Agent.Role.tool_call ∧ m.parentId = some c.id := by
  intro m hm hrole
  unfold Agent.build at hm
  rcases List.mem_cons.mp hm with hm | hm
  · rw [hm] at hrole
    rw [hsys] at hrole
    exact absurd hrole (by simp)
  · rw [List.mem_flatten] at hm
    obtain ⟨lm, hlm, hmlm⟩ := hm
    rw [List.mem_map] at hlm
    obtain ⟨u, hu, hlmu⟩ := hlm
    subst hlmu
    have husel : u ∈ Agent.buildUnits budget (Agent.toUnits history).reverse :=
      List.mem_reverse.mp hu
    have huorig : u ∈ Agent.toUnits history := by
      have := Agent.buildUnits_subset _ _ _ husel
      exact List.mem_reverse.mp this
    obtain ⟨hsingle, hpair⟩ := Agent.toUnits_sound history hwf u huorig
    cases u with
    | single m' =>
      have := hsingle m' rfl
      simp only [Agent.unitMsgs, List.mem_singleton] at hmlm
      subst hmlm
      exact absurd hrole this
    | pair c r =>
      have hph := hpair c r rfl
      obtain ⟨hcall, hres, hpar⟩ := Agent.isPairHead_props hph
      simp only [Agent.unitMsgs, List.mem_cons, List.not_mem_nil, or_false] at hmlm
      have hcin : c ∈ Agent.build budget sys history := by
        unfold Agent.build
        refine List.mem_cons_of_mem sys ?_
        rw [List.mem_flatten]
        refine ⟨Agent.unitMsgs (Agent.CtxUnit.pair c r), ?_, by simp [Agent.unitMsgs]⟩
        rw [List.mem_map]
        exact ⟨Agent.CtxUnit.pair c r, hu, rfl⟩
      rcases hmlm with hmc | hmr
      · subst hmc
        rw [hcall] at hrole
        exact absurd hrole (by simp)
      · subst hmr
        exact ⟨c, hcin, hcall, hpar⟩

/-- C6 witness: on a concrete well-formed history whose last turn is a
`list_dir` call/result pair, even a budget of 1 keeps the pair
together, so the `tool_result` in the prompt comes with its
`tool_call`. -/
theorem c6_no_orphan_tool_result_witness :
    Agent.wfHistory
      [⟨1, "s", Agent.Role.human, "hi", 1, none⟩,
       ⟨2, "s", Agent.Role.assistant, "act", 2, none⟩,
       ⟨3, "s", Agent.Role.tool_call, "list_dir", 3, none⟩,
       ⟨4, "s", Agent.Role.tool_result, "ok", 4, some 3⟩] = true ∧
    ∃ c ∈ Agent.build 1 ⟨0, "s", Agent.Role.system, "sys", 0, none⟩
        [⟨1, "s", Agent.Role.human, "hi", 1, none⟩,
         ⟨2, "s", Agent.Role.assistant, "act", 2, none⟩,
         ⟨3, "s", Agent.Role.tool_call, "list_dir", 3, none⟩,
         ⟨4, "s", Agent.Role.tool_result, "ok", 4, some 3⟩],
      c.role = Agent.Role.tool_call ∧
        (Agent.Msg.parentId ⟨4, "s", Agent.Role.tool_result, "ok", 4, some 3⟩) = some c.id :=
  ⟨by decide,
   c6_no_orphan_tool_result 1 ⟨0, "s", Agent.Role.system, "sys", 0, none⟩
     [⟨1, "s", Agent.Role.human, "hi", 1, none⟩,
      ⟨2, "s", Agent.Role.assistant, "act", 2, none⟩,
      ⟨3, "s", Agent.Role.tool_call, "list_dir", 3, none⟩,
      ⟨4, "s", Agent.Role.tool_result, "ok", 4, some 3⟩]
     rfl (by decide) ⟨4, "s", Agent.Role.tool_result, "ok", 4, some 3⟩
     (by decide) rfl⟩
